import Mathlib

/-!
Shallow embedding of the dhcp_miner repository's core logic.

`dhcpspy.py` provides the lease monitoring loop (`monitorLeases`): it reads a
lease snapshot, emits either the full snapshot or only new/changed leases,
retains a previous snapshot, and either loops or terminates when the interval
is below one second.

`MiceAndMenSpy.py` provides DHCP record classification
(`getInfoBlockForNetwork`): time-window filtering against a date twelve
calendar months before acquisition, OUI-prefix classification into the first
matching category or `Other`, and unconditional recording under `All`; and
CSV aggregation (`CreateCsvFiles`) plus the summary totals printed by `main`.

Python dicts are modelled as insertion-ordered association lists with string
keys; datetimes are records of integer fields compared lexicographically.
-/

/-- Insertion-ordered association list with string keys, modelling a Python dict. -/
abbrev Dict (α : Type) : Type := List (String × α)

/-- Python dict lookup: `m[k]` when the key is present, `none` otherwise. -/
def dlookup (k : String) : Dict α → Option α
  | [] => none
  | (k₀, v) :: rest => if k₀ = k then some v else dlookup k rest

/-- Python dict assignment `m[k] = v`: updates an existing key in place,
appends a new key at the end (insertion order). -/
def dinsert (k : String) (v : α) : Dict α → Dict α
  | [] => [(k, v)]
  | (k₀, v₀) :: rest => if k₀ = k then (k, v) :: rest else (k₀, v₀) :: dinsert k v rest

/-! ## dhcpspy.py: lease records and the monitoring loop -/

/-- The reduced lease object built by `getLeases`: only the `ip`,
`binding_state` and `start` fields are retained. The `start` timestamp is an
integer (epoch) stand-in for the datetime. -/
structure LeaseRecord where
  ip : String
  binding_state : String
  start : Int
deriving DecidableEq

/-- The comparison on line 143 of dhcpspy.py:
`macAddr not in previousLeases or lease.start != previousLeases[macAddr].start`.
Only the `start` field is consulted. -/
def leaseChanged (previousLeases : Dict LeaseRecord) (macAddr : String)
    (lease : LeaseRecord) : Bool :=
  match dlookup macAddr previousLeases with
  | none => true
  | some old => lease.start != old.start

/-- The `for macAddr in dhcpLeases` loop of `monitorLeases` (lines 141-145):
accumulates `updatedNewLeases` and updates `previousLeases` in place for each
new or changed address. Returns the pair
`(updatedNewLeases, previousLeases)`. -/
def updateLoop : Dict LeaseRecord → Dict LeaseRecord → Dict LeaseRecord →
    Dict LeaseRecord × Dict LeaseRecord
  | [], updatedNewLeases, previousLeases => (updatedNewLeases, previousLeases)
  | (macAddr, lease) :: rest, updatedNewLeases, previousLeases =>
    if leaseChanged previousLeases macAddr lease then
      updateLoop rest (dinsert macAddr lease updatedNewLeases)
        (dinsert macAddr lease previousLeases)
    else
      updateLoop rest updatedNewLeases previousLeases

/-- The steady-state comparison (lines 140-145), including the
`if len(dhcpLeases) > 0` guard. -/
def steadyCompute (dhcpLeases previousLeases : Dict LeaseRecord) :
    Dict LeaseRecord × Dict LeaseRecord :=
  if 0 < dhcpLeases.length then updateLoop dhcpLeases [] previousLeases
  else ([], previousLeases)

/-- One iteration of the `while True` body of `monitorLeases` (lines 126-153),
given the already-acquired snapshot `dhcpLeases`. The result is
`(emissions, newPreviousLeases, terminated)` where `emissions` lists each
`fnHandleUpdates(leaseMap, isDelta)` call made during the iteration and
`terminated` records whether the function returned (one-shot mode). -/
def monitorIteration (previousLeases dhcpLeases : Dict LeaseRecord)
    (alwaysSendAllData : Bool) (interval : ℚ) :
    List (Dict LeaseRecord × Bool) × Dict LeaseRecord × Bool :=
  if previousLeases.length = 0 || alwaysSendAllData then
    if interval < 1 then ([(dhcpLeases, false)], previousLeases, true)
    else ([(dhcpLeases, false)], dhcpLeases, false)
  else
    if !alwaysSendAllData then
      let p := steadyCompute dhcpLeases previousLeases
      if 0 < p.1.length then ([(p.1, true)], p.2, false)
      else ([], p.2, false)
    else
      ([(dhcpLeases, false)], previousLeases, false)

/-- The `while True` loop of `monitorLeases`, fuelled. `snapshots i` is the
snapshot `getLeases` returns on iteration `i` (acquisition is external I/O).
Returns the concatenated emissions and whether the loop returned on its own
(`true`) or merely ran out of fuel (`false`). -/
def monitorLoop (snapshots : Nat → Dict LeaseRecord) (alwaysSendAllData : Bool)
    (interval : ℚ) : Nat → Nat → Dict LeaseRecord →
    List (Dict LeaseRecord × Bool) × Bool
  | 0, _, _ => ([], false)
  | fuel + 1, i, previousLeases =>
    let r := monitorIteration previousLeases (snapshots i) alwaysSendAllData interval
    if r.2.2 then (r.1, true)
    else
      let rest := monitorLoop snapshots alwaysSendAllData interval fuel (i + 1) r.2.1
      (r.1 ++ rest.1, rest.2)

/-- `monitorLeases` itself: the loop started with `previousLeases = {}`. -/
def monitorLeases (snapshots : Nat → Dict LeaseRecord) (interval : ℚ)
    (alwaysSendAllData : Bool) (fuel : Nat) :
    List (Dict LeaseRecord × Bool) × Bool :=
  monitorLoop snapshots alwaysSendAllData interval fuel 0 []

/-! ### Concrete lease data for witness instantiations -/

/-- An existing lease. -/
def exLeaseOld : LeaseRecord := ⟨"10.0.0.1", "active", 100⟩

/-- The same lease with a different ip and binding state but the same start. -/
def exLeaseNewIp : LeaseRecord := ⟨"10.0.0.2", "free", 100⟩

/-- A newly appearing lease. -/
def exLeaseB : LeaseRecord := ⟨"10.0.0.3", "active", 200⟩

/-- Previous snapshot holding one lease. -/
def exPrev : Dict LeaseRecord := [("aa:aa", exLeaseOld)]

/-- Current snapshot: the old lease unchanged plus one new lease. -/
def exCurr : Dict LeaseRecord := [("aa:aa", exLeaseOld), ("bb:bb", exLeaseB)]

/-- Current snapshot where the old lease changed ip and binding state only. -/
def exCurrChanged : Dict LeaseRecord := [("aa:aa", exLeaseNewIp)]

/-! ## MiceAndMenSpy.py: datetimes, strings, classification -/

/-- Naive datetime: integer fields, compared field-lexicographically exactly
like Python's `datetime`. -/
structure DateTime where
  year : Int
  month : Int
  day : Int
  hour : Int
  minute : Int
  second : Int
deriving DecidableEq

/-- Field list used for the lexicographic comparison. -/
def DateTime.fields (d : DateTime) : List Int :=
  [d.year, d.month, d.day, d.hour, d.minute, d.second]

/-- Strict lexicographic order on integer lists. -/
def lexLt : List Int → List Int → Bool
  | [], [] => false
  | [], _ :: _ => true
  | _ :: _, [] => false
  | a :: as, b :: bs => if a < b then true else if b < a then false else lexLt as bs

/-- Python `d1 < d2` on naive datetimes. -/
def dtLt (d₁ d₂ : DateTime) : Bool :=
  lexLt d₁.fields d₂.fields

/-- Gregorian leap-year test. -/
def isLeap (y : Int) : Bool :=
  y % 4 = 0 && (!(y % 100 = 0) || y % 400 = 0)

/-- Days of a month. -/
def daysInMonth (year month : Int) : Int :=
  if month = 2 then (if isLeap year then 29 else 28)
  else if month = 4 ∨ month = 6 ∨ month = 9 ∨ month = 11 then 30
  else 31

/-- `datetime.now() - relativedelta(months=12)` (line 145 of MiceAndMenSpy.py):
calendar-month arithmetic, going back one year and clamping the day to the
target month's length (e.g. Feb 29 to Feb 28). -/
def subMonths12 (d : DateTime) : DateTime :=
  { d with year := d.year - 1, day := min d.day (daysInMonth (d.year - 1) d.month) }

/-- Python `s.lower()` (character-wise lowering). -/
def pyLower (s : String) : String := ⟨s.data.map Char.toLower⟩

/-- Python `s[:n]`. -/
def pyTake (s : String) (n : Nat) : String := ⟨s.data.take n⟩

/-- Python `len(s)`. -/
def pyLen (s : String) : Nat := s.data.length

/-- `needle` occurs at the head of `hay`. -/
def leadMatch : List Char → List Char → Bool
  | [], _ => true
  | _ :: _, [] => false
  | n :: ns, h :: hs => n = h && leadMatch ns hs

/-- `needle` occurs contiguously somewhere in `hay`. -/
def containsL (needle : List Char) : List Char → Bool
  | [] => leadMatch needle []
  | h :: hs => leadMatch needle (h :: hs) || containsL needle hs

/-- Python `needle in hay` on strings. -/
def pyContains (needle hay : String) : Bool := containsL needle.data hay.data

/-- The condition on line 199: `macID.lower() in macAddr[:len(macID)].lower()`. -/
def macIdMatch (macID macAddr : String) : Bool :=
  pyContains (pyLower macID) (pyLower (pyTake macAddr (pyLen macID)))

/-- A DDI IPAM record, reduced to the fields `getInfoBlockForNetwork` reads.
`lastSeenDate` carries the timestamp already parsed by `strptime` (format
`%b %d, %Y %H:%M:%S`); textual parsing is external to the engine. -/
structure IpamRecord where
  lastKnownClientIdentifier : String
  lastSeenDate : DateTime
deriving DecidableEq

/-- Classification result of one network: category name to (mac to record). -/
abbrev RetMap := Dict (Dict IpamRecord)

/-- `retMap[cat][mac] = record`. -/
def insert2 (cat mac : String) (record : IpamRecord) (m : RetMap) : RetMap :=
  dinsert cat (dinsert mac record ((dlookup cat m).getD [])) m

/-- `retMap[cat][mac]` when both keys are present. -/
def recAt (m : RetMap) (cat mac : String) : Option IpamRecord :=
  dlookup mac ((dlookup cat m).getD [])

/-- The `for macID in OUI_MAP[ouiType]` loop (lines 198-201): every matching
prefix stores the record under the category and sets the found flag. -/
def macIdLoop (ouiType macAddr : String) (record : IpamRecord) :
    List String → Bool → RetMap → Bool × RetMap
  | [], found, retMap => (found, retMap)
  | macID :: rest, found, retMap =>
    if macIdMatch macID macAddr then
      macIdLoop ouiType macAddr record rest true (insert2 ouiType macAddr record retMap)
    else
      macIdLoop ouiType macAddr record rest found retMap

/-- The `for ouiType in OUI_MAP` loop (lines 193-201): ensures each category
key exists and runs the inner prefix loop only while no match was found. -/
def ouiLoop (macAddr : String) (record : IpamRecord) :
    List (String × List String) → Bool → RetMap → Bool × RetMap
  | [], found, retMap => (found, retMap)
  | (ouiType, macIDs) :: rest, found, retMap =>
    let retMap1 := if (dlookup ouiType retMap).isNone then dinsert ouiType [] retMap
                   else retMap
    if found then ouiLoop macAddr record rest found retMap1
    else
      let r := macIdLoop ouiType macAddr record macIDs found retMap1
      ouiLoop macAddr record rest r.1 r.2

/-- The body of the `for record in respData['ipamRecords']` loop
(lines 182-207): hardware-address presence check, time-window filter,
classification into the first matching category or `Other`, and unconditional
recording under `All`. -/
def processRecord (ouiMap : List (String × List String)) (now : DateTime)
    (retMap : RetMap) (record : IpamRecord) : RetMap :=
  if 0 < pyLen record.lastKnownClientIdentifier then
    if dtLt (subMonths12 now) record.lastSeenDate then
      insert2 "All" record.lastKnownClientIdentifier record
        (if (ouiLoop record.lastKnownClientIdentifier record ouiMap false retMap).1 = false
         then insert2 "Other" record.lastKnownClientIdentifier record
            (ouiLoop record.lastKnownClientIdentifier record ouiMap false retMap).2
         else (ouiLoop record.lastKnownClientIdentifier record ouiMap false retMap).2)
    else retMap
  else retMap

/-- The record loop of `getInfoBlockForNetwork`. -/
def processRecords (ouiMap : List (String × List String)) (now : DateTime) :
    List IpamRecord → RetMap → RetMap
  | [], retMap => retMap
  | record :: rest, retMap =>
    processRecords ouiMap now rest (processRecord ouiMap now retMap record)

/-- `getInfoBlockForNetwork` (lines 128-213): the map starts with `Other` and
`All`; if the range reference cannot be extracted (`try/except`, lines
162-166) the map is returned early, otherwise every IPAM record is processed.
The REST/cache collaborators deliver `rangeRef` and `records`. -/
def getInfoBlockForNetwork (ouiMap : List (String × List String)) (now : DateTime)
    (rangeRef : Option String) (records : List IpamRecord) : RetMap :=
  match rangeRef with
  | none => [("Other", []), ("All", [])]
  | some _ => processRecords ouiMap now records [("Other", []), ("All", [])]

/-- Spec-side matching predicate, from the claim's wording: the prefix is
case-insensitively equal to the leading characters of the address truncated
to the prefix's own length. -/
def specMatch (macID macAddr : String) : Bool :=
  decide (pyLower (pyTake macAddr (pyLen macID)) = pyLower macID)

/-- Spec-side classifier: the first category, in table order, containing a
matching prefix; `Other` when none matches. -/
def classifySpec (ouiMap : List (String × List String)) (macAddr : String) : String :=
  match ouiMap.find? (fun c => c.2.any (fun macID => specMatch macID macAddr)) with
  | some c => c.1
  | none => "Other"

/-- Code-side first matching category, using the code's own condition. -/
def firstCat (ouiMap : List (String × List String)) (macAddr : String) :
    Option (String × List String) :=
  ouiMap.find? (fun c => c.2.any (fun macID => macIdMatch macID macAddr))

/-- Code-side classification label of one address. -/
def classifyCode (ouiMap : List (String × List String)) (macAddr : String) : String :=
  match firstCat ouiMap macAddr with
  | some c => c.1
  | none => "Other"

/-! ## MiceAndMenSpy.py: CreateCsvFiles and the summary -/

/-- State of `CreateCsvFiles` while processing one lab: `subnetMap` maps each
category to its per-subnet CSV line lists (and `Duplicates` to an
address-to-networks map), `labMacs` maps each address to the list of subnets
recorded for it so far. -/
structure CsvState where
  subnetMap : Dict (Dict (List String))
  labMacs : Dict (List String)

/-- Lines 233-244 of MiceAndMenSpy.py: record one address occurrence. The CSV
line list for a new subnet starts with the subnet name itself (line 234);
an address already present in `labMacs` gets its whole accumulated network
list written under `Duplicates`. -/
def processMac (ty subnet macAddr : String) (st : CsvState) : CsvState :=
  let typeMap := (dlookup ty st.subnetMap).getD []
  let typeMap1 := if (dlookup subnet typeMap).isNone
                  then dinsert subnet [subnet] typeMap else typeMap
  let typeMap2 := dinsert subnet (((dlookup subnet typeMap1).getD []) ++ [macAddr]) typeMap1
  let sm1 := dinsert ty typeMap2 st.subnetMap
  match dlookup macAddr st.labMacs with
  | some lst =>
    { subnetMap := dinsert "Duplicates"
        (dinsert macAddr (lst ++ [subnet]) ((dlookup "Duplicates" sm1).getD [])) sm1,
      labMacs := dinsert macAddr (lst ++ [subnet]) st.labMacs }
  | none =>
    { subnetMap := sm1, labMacs := dinsert macAddr [subnet] st.labMacs }

/-- The `for macAddr in blockMap[lab][subnet][type]` loop (line 232). -/
def processMacs (ty subnet : String) : List (String × IpamRecord) → CsvState → CsvState
  | [], st => st
  | (macAddr, _) :: rest, st => processMacs ty subnet rest (processMac ty subnet macAddr st)

/-- The `for type in blockMap[lab][subnet]` loop (lines 228-230), ensuring a
`subnetMap` entry for the category. -/
def processTypes (subnet : String) : List (String × Dict IpamRecord) → CsvState → CsvState
  | [], st => st
  | (ty, macs) :: rest, st =>
    let st1 := if (dlookup ty st.subnetMap).isNone
               then { st with subnetMap := dinsert ty [] st.subnetMap } else st
    processTypes subnet rest (processMacs ty subnet macs st1)

/-- The `for subnet in blockMap[lab]` loop (line 227). -/
def processSubnets : List (String × RetMap) → CsvState → CsvState
  | [], st => st
  | (subnet, block) :: rest, st => processSubnets rest (processTypes subnet block st)

/-- Per-lab body of `CreateCsvFiles` (lines 223-246): starts with
`subnetMap = {'Duplicates': {}}` and an empty `labMacs`. -/
def processLab (labData : List (String × RetMap)) : CsvState :=
  processSubnets labData { subnetMap := [("Duplicates", [])], labMacs := [] }

/-- The summary total printed by `main` (lines 320-326) for one category of a
lab: the number of `Duplicates` entries, or the summed lengths of the
per-subnet CSV line lists. -/
def summaryTotal (ty : String) (subnetList : Dict (List String)) : Nat :=
  if ty = "Duplicates" then subnetList.length
  else (subnetList.map (fun p => p.2.length)).sum

/-! ### Concrete classification data for witnesses and evaluations -/

/-- Acquisition time of the concrete runs. -/
def exNow : DateTime := ⟨2025, 10, 12, 9, 30, 0⟩

/-- A record observed well inside the twelve-month window. -/
def exRecent : IpamRecord := ⟨"00:11:22:33:44:55", ⟨2025, 5, 1, 8, 0, 0⟩⟩

/-- Classification block of one network with an empty OUI table: the single
address lands under `Other` and `All`. -/
def exBlock : RetMap := getInfoBlockForNetwork [] exNow (some "ref") [exRecent]

/-- A lab with one network. -/
def exLabOne : List (String × RetMap) := [("N1", exBlock)]

/-- A lab observing the same address on two networks. -/
def exLabTwo : List (String × RetMap) := [("N1", exBlock), ("N2", exBlock)]

/-! ## Theorems: dictionary lemmas -/

theorem dlookup_dinsert (k j : String) (v : α) (m : Dict α) :
    dlookup j (dinsert k v m) = if k = j then some v else dlookup j m := by
  induction m with
  | nil => simp [dinsert, dlookup]
  | cons kv rest ih =>
    obtain ⟨k₀, v₀⟩ := kv
    by_cases h : k₀ = k
    · subst h
      by_cases hj : k₀ = j
      · subst hj; simp [dinsert, dlookup]
      · simp [dinsert, dlookup, hj]
    · by_cases hj : k₀ = j
      · subst hj
        have hk : ¬ k = k₀ := fun hh => h hh.symm
        simp [dinsert, dlookup, h, hk]
      · simp [dinsert, dlookup, h, hj, ih]

theorem dlookup_dinsert_self (k : String) (v : α) (m : Dict α) :
    dlookup k (dinsert k v m) = some v := by
  simp [dlookup_dinsert]

theorem dlookup_dinsert_ne (k j : String) (v : α) (m : Dict α) (h : k ≠ j) :
    dlookup j (dinsert k v m) = dlookup j m := by
  simp [dlookup_dinsert, h]

theorem dlookup_eq_none_iff (k : String) (m : Dict α) :
    dlookup k m = none ↔ k ∉ m.map Prod.fst := by
  induction m with
  | nil => simp [dlookup]
  | cons kv rest ih =>
    obtain ⟨k₀, v₀⟩ := kv
    by_cases h : k₀ = k
    · subst h; simp [dlookup]
    · simp only [dlookup, if_neg h, List.map_cons, List.mem_cons, ih]
      constructor
      · intro hn hmem
        rcases hmem with h1 | h2
        · exact h h1.symm
        · exact hn h2
      · intro hn h2
        exact hn (Or.inr h2)

theorem dlookup_isSome_dinsert (k j : String) (v : α) (m : Dict α)
    (h : (dlookup j m).isSome = true) : (dlookup j (dinsert k v m)).isSome = true := by
  rw [dlookup_dinsert]
  split <;> simp_all

/-! ## Theorems: the delta engine of monitorLeases -/

theorem leaseChanged_congr (P P' : Dict LeaseRecord) (mac : String) (l : LeaseRecord)
    (h : dlookup mac P = dlookup mac P') : leaseChanged P mac l = leaseChanged P' mac l := by
  unfold leaseChanged
  rw [h]

theorem leaseChanged_iff (P : Dict LeaseRecord) (mac : String) (l : LeaseRecord) :
    leaseChanged P mac l = true ↔
      (dlookup mac P = none ∨ ∃ old, dlookup mac P = some old ∧ ¬ old.start = l.start) := by
  unfold leaseChanged
  cases h : dlookup mac P with
  | none => simp
  | some old =>
    simp only [bne_iff_ne, ne_eq, reduceCtorEq, false_or, Option.some.injEq]
    constructor
    · intro hne
      exact ⟨old, rfl, fun hh => hne hh.symm⟩
    · rintro ⟨old', h', hne⟩
      subst h'
      exact fun hh => hne hh.symm

theorem updateLoop_not_mem (L : Dict LeaseRecord) :
    ∀ (U P : Dict LeaseRecord) (mac : String), dlookup mac L = none →
    dlookup mac (updateLoop L U P).1 = dlookup mac U ∧
    dlookup mac (updateLoop L U P).2 = dlookup mac P := by
  induction L with
  | nil => intro U P mac _; exact ⟨rfl, rfl⟩
  | cons kv rest ih =>
    intro U P mac h
    obtain ⟨k, v⟩ := kv
    have hk : ¬ k = mac := by
      intro hh; subst hh; simp [dlookup] at h
    have hrest : dlookup mac rest = none := by
      simpa [dlookup, hk] using h
    unfold updateLoop
    split
    · constructor
      · rw [(ih _ _ mac hrest).1, dlookup_dinsert_ne _ _ _ _ hk]
      · rw [(ih _ _ mac hrest).2, dlookup_dinsert_ne _ _ _ _ hk]
    · exact ih U P mac hrest

theorem updateLoop_mem (L : Dict LeaseRecord) :
    ∀ (U P : Dict LeaseRecord) (mac : String) (l : LeaseRecord),
    (L.map Prod.fst).Nodup → dlookup mac L = some l →
    dlookup mac (updateLoop L U P).1 =
      (if leaseChanged P mac l then some l else dlookup mac U) ∧
    dlookup mac (updateLoop L U P).2 =
      (if leaseChanged P mac l then some l else dlookup mac P) := by
  induction L with
  | nil => intro U P mac l _ h; simp [dlookup] at h
  | cons kv rest ih =>
    intro U P mac l hnd h
    obtain ⟨k, v⟩ := kv
    rw [List.map_cons, List.nodup_cons] at hnd
    by_cases hk : k = mac
    · subst hk
      have hv : v = l := by simpa [dlookup] using h
      subst hv
      have hrest : dlookup k rest = none := by
        rw [dlookup_eq_none_iff]; exact hnd.1
      unfold updateLoop
      split
      · constructor
        · rw [(updateLoop_not_mem rest _ _ k hrest).1, dlookup_dinsert_self]
        · rw [(updateLoop_not_mem rest _ _ k hrest).2, dlookup_dinsert_self]
      · constructor
        · rw [(updateLoop_not_mem rest _ _ k hrest).1]
        · rw [(updateLoop_not_mem rest _ _ k hrest).2]
    · have hrest : dlookup mac rest = some l := by
        simpa [dlookup, hk] using h
      unfold updateLoop
      split
      · have hP : dlookup mac (dinsert k v P) = dlookup mac P :=
          dlookup_dinsert_ne _ _ _ _ hk
        have hih := ih (dinsert k v U) (dinsert k v P) mac l hnd.2 hrest
        rw [hih.1, hih.2, leaseChanged_congr _ P _ _ hP,
          dlookup_dinsert_ne _ _ _ _ hk, hP]
        exact ⟨rfl, rfl⟩
      · exact ih U P mac l hnd.2 hrest

theorem monitorIteration_steady (previousLeases dhcpLeases : Dict LeaseRecord)
    (interval : ℚ) (hprev : previousLeases ≠ []) :
    monitorIteration previousLeases dhcpLeases false interval =
      (if 0 < (steadyCompute dhcpLeases previousLeases).1.length
       then ([((steadyCompute dhcpLeases previousLeases).1, true)],
             (steadyCompute dhcpLeases previousLeases).2, false)
       else ([], (steadyCompute dhcpLeases previousLeases).2, false)) := by
  have hlen : ¬ previousLeases.length = 0 := by
    simpa [List.length_eq_zero] using hprev
  simp [monitorIteration, hlen]

/-- C4: in STEADY state (non-empty previous snapshot) without
`alwaysSendAllData`, the partial result contains exactly the addresses of the
current snapshot that are absent from the previous snapshot or whose `start`
timestamp differs from the previous entry; addresses only in the previous
snapshot are never included; and the sink is invoked (exactly once, tagged as
a delta) only when the partial result is non-empty. -/
theorem monitor_steady_partial_characterization
    (previousLeases dhcpLeases : Dict LeaseRecord) (interval : ℚ)
    (hprev : previousLeases ≠ [])
    (hnd : (dhcpLeases.map Prod.fst).Nodup) :
    (monitorIteration previousLeases dhcpLeases false interval).1 =
      (if (steadyCompute dhcpLeases previousLeases).1 = [] then []
       else [((steadyCompute dhcpLeases previousLeases).1, true)]) ∧
    (∀ mac l, dlookup mac (steadyCompute dhcpLeases previousLeases).1 = some l ↔
       (dlookup mac dhcpLeases = some l ∧
        (dlookup mac previousLeases = none ∨
         ∃ old, dlookup mac previousLeases = some old ∧ ¬ old.start = l.start))) ∧
    (∀ mac, dlookup mac dhcpLeases = none →
       dlookup mac (steadyCompute dhcpLeases previousLeases).1 = none) := by
  refine ⟨?_, ?_, ?_⟩
  · rw [monitorIteration_steady _ _ interval hprev]
    by_cases hE : (steadyCompute dhcpLeases previousLeases).1 = []
    · have hnp : ¬ 0 < (steadyCompute dhcpLeases previousLeases).1.length := by
        simp [hE]
      rw [if_neg hnp, if_pos hE]
    · rw [if_pos (List.length_pos.mpr hE), if_neg hE]
  · intro mac l
    unfold steadyCompute
    by_cases hpos : 0 < dhcpLeases.length
    · rw [if_pos hpos]
      cases hmac : dlookup mac dhcpLeases with
      | none =>
        rw [(updateLoop_not_mem dhcpLeases _ _ mac hmac).1]
        simp [dlookup]
      | some l' =>
        have heq : dlookup mac (updateLoop dhcpLeases [] previousLeases).1 =
            (if leaseChanged previousLeases mac l' then some l' else dlookup mac []) :=
          (updateLoop_mem dhcpLeases [] previousLeases mac l' hnd hmac).1
        rw [heq]
        constructor
        · intro hL
          split at hL
          · rename_i hch
            injection hL with hl
            subst hl
            exact ⟨rfl, (leaseChanged_iff _ _ _).mp hch⟩
          · simp [dlookup] at hL
        · rintro ⟨hdl, hP⟩
          injection hdl with hl
          subst hl
          rw [if_pos ((leaseChanged_iff _ _ _).mpr hP)]
    · rw [if_neg hpos]
      have hnil : dhcpLeases = [] := by
        rw [← List.length_eq_zero]
        omega
      subst hnil
      simp [dlookup]
  · intro mac hmac
    unfold steadyCompute
    by_cases hpos : 0 < dhcpLeases.length
    · rw [if_pos hpos, (updateLoop_not_mem dhcpLeases _ _ mac hmac).1]
      rfl
    · rw [if_neg hpos]
      rfl

/-- Witness for C4 at the spec's own example: previous `{A: start 100}`,
current `{A: start 100, B: start 200}`. -/
theorem monitor_steady_partial_characterization_witness :
    exPrev ≠ [] ∧ (exCurr.map Prod.fst).Nodup ∧
    ((monitorIteration exPrev exCurr false 5).1 =
      (if (steadyCompute exCurr exPrev).1 = [] then []
       else [((steadyCompute exCurr exPrev).1, true)]) ∧
     (∀ mac l, dlookup mac (steadyCompute exCurr exPrev).1 = some l ↔
        (dlookup mac exCurr = some l ∧
         (dlookup mac exPrev = none ∨
          ∃ old, dlookup mac exPrev = some old ∧ ¬ old.start = l.start))) ∧
     (∀ mac, dlookup mac exCurr = none →
        dlookup mac (steadyCompute exCurr exPrev).1 = none)) :=
  ⟨by decide, by decide,
    monitor_steady_partial_characterization exPrev exCurr 5 (by decide) (by decide)⟩

/-- C3: when the retained previous snapshot is empty (INITIAL) or
`alwaysSendAllData` is set, the iteration emits exactly the full current
snapshot tagged `isDelta = False`, and if the loop continues (no one-shot
return) the retained previous snapshot becomes the current snapshot. -/
theorem monitor_initial_or_always_emits_full
    (previousLeases dhcpLeases : Dict LeaseRecord) (alwaysSendAllData : Bool)
    (interval : ℚ) (h : previousLeases = [] ∨ alwaysSendAllData = true) :
    (monitorIteration previousLeases dhcpLeases alwaysSendAllData interval).1 =
      [(dhcpLeases, false)] ∧
    ((monitorIteration previousLeases dhcpLeases alwaysSendAllData interval).2.2 = false →
      (monitorIteration previousLeases dhcpLeases alwaysSendAllData interval).2.1 =
        dhcpLeases) := by
  by_cases hi : interval < 1
  · constructor
    · simp [monitorIteration, h, hi]
    · intro ht
      simp [monitorIteration, h, hi] at ht
  · constructor
    · simp [monitorIteration, h, hi]
    · intro _
      simp [monitorIteration, h, hi]

/-- Witness for C3: empty previous snapshot, interval 5. -/
theorem monitor_initial_or_always_emits_full_witness :
    (([] : Dict LeaseRecord) = [] ∨ false = true) ∧
    ((monitorIteration [] exCurr false 5).1 = [(exCurr, false)] ∧
     ((monitorIteration [] exCurr false 5).2.2 = false →
       (monitorIteration [] exCurr false 5).2.1 = exCurr)) :=
  ⟨Or.inl rfl, monitor_initial_or_always_emits_full [] exCurr false 5 (Or.inl rfl)⟩

/-- C8: for any interval below 1 the monitor performs exactly one handler
invocation, with the full first snapshot tagged `isDelta = False`, and then
returns (independently of the remaining fuel, i.e. without iterating again). -/
theorem monitor_oneshot_single_emission
    (snapshots : Nat → Dict LeaseRecord) (alwaysSendAllData : Bool)
    (interval : ℚ) (fuel : Nat) (h : interval < 1) :
    monitorLeases snapshots interval alwaysSendAllData (fuel + 1) =
      ([(snapshots 0, false)], true) := by
  have hstep : monitorIteration [] (snapshots 0) alwaysSendAllData interval =
      ([(snapshots 0, false)], [], true) := by
    simp [monitorIteration, h]
  rw [monitorLeases]
  simp only [monitorLoop, hstep]
  simp

/-- Witness for C8: interval 0, fuel 4: one emission, then termination. -/
theorem monitor_oneshot_single_emission_witness :
    ((0 : ℚ) < 1) ∧
    monitorLeases (fun _ => exCurr) 0 false 4 = ([(exCurr, false)], true) :=
  ⟨by norm_num,
    monitor_oneshot_single_emission (fun _ => exCurr) false 0 3 (by norm_num)⟩

/-- C10: the steady-state comparison looks only at `start`: a lease present in
both snapshots with an unchanged `start` is excluded from the partial result
even if its `ip` or `binding_state` changed, and the retained previous
snapshot keeps the old record (old ip and binding state) for that address. -/
theorem steady_compare_start_only
    (previousLeases dhcpLeases : Dict LeaseRecord) (mac : String)
    (lOld lNew : LeaseRecord)
    (hnd : (dhcpLeases.map Prod.fst).Nodup)
    (hold : dlookup mac previousLeases = some lOld)
    (hcur : dlookup mac dhcpLeases = some lNew)
    (hstart : lNew.start = lOld.start) :
    dlookup mac (steadyCompute dhcpLeases previousLeases).1 = none ∧
    dlookup mac (steadyCompute dhcpLeases previousLeases).2 = some lOld := by
  have hpos : 0 < dhcpLeases.length := by
    cases dhcpLeases with
    | nil => simp [dlookup] at hcur
    | cons a l => simp
  have hch : leaseChanged previousLeases mac lNew = false := by
    unfold leaseChanged
    rw [hold]
    simp [hstart]
  have hm := updateLoop_mem dhcpLeases [] previousLeases mac lNew hnd hcur
  unfold steadyCompute
  rw [if_pos hpos]
  constructor
  · rw [hm.1, hch]
    simp [dlookup]
  · rw [hm.2, hch]
    simp [hold]

/-- Witness for C10: the lease kept its start 100 but changed ip and binding
state; it is excluded from the partial result and the previous snapshot keeps
the old record. -/
theorem steady_compare_start_only_witness :
    (exCurrChanged.map Prod.fst).Nodup ∧
    dlookup "aa:aa" exPrev = some exLeaseOld ∧
    dlookup "aa:aa" exCurrChanged = some exLeaseNewIp ∧
    exLeaseNewIp.start = exLeaseOld.start ∧
    (dlookup "aa:aa" (steadyCompute exCurrChanged exPrev).1 = none ∧
     dlookup "aa:aa" (steadyCompute exCurrChanged exPrev).2 = some exLeaseOld) :=
  ⟨by decide, by decide, by decide, by decide,
    steady_compare_start_only exPrev exCurrChanged "aa:aa" exLeaseOld exLeaseNewIp
      (by decide) (by decide) (by decide) (by decide)⟩

/-! ## Theorems: strings and the matching condition -/

theorem leadMatch_length_le (n : List Char) :
    ∀ h : List Char, leadMatch n h = true → n.length ≤ h.length := by
  induction n with
  | nil => intro h _; simp
  | cons c cs ih =>
    intro h hm
    cases h with
    | nil => simp [leadMatch] at hm
    | cons d ds =>
      simp only [leadMatch, Bool.and_eq_true] at hm
      simpa [List.length_cons] using Nat.succ_le_succ (ih ds hm.2)

theorem leadMatch_eq_of_length (n : List Char) :
    ∀ h : List Char, h.length ≤ n.length → (leadMatch n h = true ↔ n = h) := by
  induction n with
  | nil =>
    intro h hl
    cases h with
    | nil => simp [leadMatch]
    | cons d ds => simp at hl
  | cons c cs ih =>
    intro h hl
    cases h with
    | nil => simp [leadMatch]
    | cons d ds =>
      simp only [List.length_cons] at hl
      simp [leadMatch, decide_eq_true_eq, ih ds (by omega), List.cons.injEq]

theorem containsL_short (n : List Char) :
    ∀ h : List Char, h.length < n.length → containsL n h = false := by
  intro h
  induction h with
  | nil =>
    intro hs
    cases n with
    | nil => simp at hs
    | cons c cs => simp [containsL, leadMatch]
  | cons d ds ih =>
    intro hs
    have h1 : leadMatch n (d :: ds) = false := by
      cases hLM : leadMatch n (d :: ds) with
      | false => rfl
      | true =>
        have := leadMatch_length_le n (d :: ds) hLM
        omega
    have h2 : containsL n ds = false := by
      apply ih
      simp only [List.length_cons] at hs
      omega
    simp [containsL, h1, h2]

theorem containsL_eq_iff (n h : List Char) (hl : h.length ≤ n.length) :
    containsL n h = true ↔ n = h := by
  cases h with
  | nil => simpa [containsL] using leadMatch_eq_of_length n [] (by simp)
  | cons d ds =>
    have h2 : containsL n ds = false := by
      apply containsL_short
      simp only [List.length_cons] at hl
      omega
    simp [containsL, h2, leadMatch_eq_of_length n (d :: ds) hl]

theorem string_eq_iff_data (s₁ s₂ : String) : s₁ = s₂ ↔ s₁.data = s₂.data := by
  constructor
  · intro h; rw [h]
  · intro h
    cases s₁
    cases s₂
    exact congrArg String.mk h

theorem macIdMatch_iff (macID macAddr : String) :
    macIdMatch macID macAddr = true ↔
      pyLower (pyTake macAddr (pyLen macID)) = pyLower macID := by
  have hlen : (pyLower (pyTake macAddr (pyLen macID))).data.length ≤
      (pyLower macID).data.length := by
    simp [pyLower, pyTake, pyLen, List.length_take]
  unfold macIdMatch pyContains
  rw [containsL_eq_iff _ _ hlen, string_eq_iff_data]
  exact eq_comm

theorem macIdMatch_eq_specMatch (macID macAddr : String) :
    macIdMatch macID macAddr = specMatch macID macAddr := by
  have hiff := macIdMatch_iff macID macAddr
  cases hs : specMatch macID macAddr with
  | true =>
    apply hiff.mpr
    unfold specMatch at hs
    simpa using hs
  | false =>
    cases hm : macIdMatch macID macAddr with
    | false => rfl
    | true =>
      have heq := hiff.mp hm
      unfold specMatch at hs
      simp [heq] at hs

theorem macIdMatch_funext : @macIdMatch = @specMatch := by
  funext macID macAddr
  exact macIdMatch_eq_specMatch macID macAddr

theorem classifyCode_eq_classifySpec (ouiMap : List (String × List String))
    (macAddr : String) :
    classifyCode ouiMap macAddr = classifySpec ouiMap macAddr := by
  unfold classifyCode firstCat classifySpec
  rw [macIdMatch_funext]

theorem lexLt_irrefl (l : List Int) : lexLt l l = false := by
  induction l with
  | nil => rfl
  | cons a as ih => simp [lexLt, ih]

theorem dtLt_irrefl (d : DateTime) : dtLt d d = false :=
  lexLt_irrefl _

/-! ## Theorems: classification loop characterization -/

theorem recAt_insert2 (c k cat mac : String) (r : IpamRecord) (m : RetMap) :
    recAt (insert2 c k r m) cat mac =
      if cat = c ∧ mac = k then some r else recAt m cat mac := by
  unfold recAt insert2
  by_cases hc : cat = c
  · subst hc
    rw [dlookup_dinsert_self]
    simp only [Option.getD_some]
    rw [dlookup_dinsert]
    by_cases hk : mac = k
    · subst hk
      simp
    · have hkk : ¬ (k = mac) := fun hh => hk hh.symm
      simp [hkk, hk]
  · have hcc : ¬ (c = cat) := fun hh => hc hh.symm
    rw [dlookup_dinsert_ne _ _ _ _ hcc]
    simp [hc]

theorem recAt_ensure (t cat mac : String) (m : RetMap) :
    recAt (if (dlookup t m).isNone then dinsert t [] m else m) cat mac =
      recAt m cat mac := by
  split
  · rename_i hnone
    unfold recAt
    rw [dlookup_dinsert]
    by_cases ht : t = cat
    · subst ht
      rw [if_pos rfl]
      rw [Option.isNone_iff_eq_none] at hnone
      rw [hnone]
      simp [dlookup]
    · rw [if_neg ht]
  · rfl

theorem macIdLoop_spec (ouiType macAddr : String) (record : IpamRecord) :
    ∀ (macIDs : List String) (found : Bool) (m : RetMap),
    (macIdLoop ouiType macAddr record macIDs found m).1 =
      (found || macIDs.any (fun macID => macIdMatch macID macAddr)) ∧
    ∀ cat mac,
      recAt (macIdLoop ouiType macAddr record macIDs found m).2 cat mac =
        (if macIDs.any (fun macID => macIdMatch macID macAddr) = true
            ∧ cat = ouiType ∧ mac = macAddr
         then some record else recAt m cat mac) := by
  intro macIDs
  induction macIDs with
  | nil =>
    intro found m
    constructor
    · simp [macIdLoop]
    · intro cat mac
      simp [macIdLoop]
  | cons macID rest ih =>
    intro found m
    by_cases hm : macIdMatch macID macAddr = true
    · have hstep : macIdLoop ouiType macAddr record (macID :: rest) found m =
          macIdLoop ouiType macAddr record rest true (insert2 ouiType macAddr record m) := by
        simp [macIdLoop, hm]
      constructor
      · rw [hstep, (ih true _).1]
        simp [hm]
      · intro cat mac
        rw [hstep, (ih true _).2 cat mac, recAt_insert2]
        by_cases hcm : cat = ouiType ∧ mac = macAddr
        · obtain ⟨h1, h2⟩ := hcm
          subst h1
          subst h2
          simp [hm]
        · have hA : ¬ (rest.any (fun macID => macIdMatch macID macAddr) = true
              ∧ cat = ouiType ∧ mac = macAddr) := fun hh => hcm hh.2
          have hB : ¬ ((macID :: rest).any (fun macID => macIdMatch macID macAddr) = true
              ∧ cat = ouiType ∧ mac = macAddr) := fun hh => hcm hh.2
          rw [if_neg hA, if_neg hcm, if_neg hB]
    · have hm' : macIdMatch macID macAddr = false := by
        simpa using hm
      have hstep : macIdLoop ouiType macAddr record (macID :: rest) found m =
          macIdLoop ouiType macAddr record rest found m := by
        simp [macIdLoop, hm']
      constructor
      · rw [hstep, (ih found m).1]
        simp [hm']
      · intro cat mac
        rw [hstep, (ih found m).2 cat mac]
        simp [hm']

theorem ouiLoop_found_true (macAddr : String) (record : IpamRecord) :
    ∀ (ouiMap : List (String × List String)) (m : RetMap),
    (ouiLoop macAddr record ouiMap true m).1 = true ∧
    ∀ cat mac, recAt (ouiLoop macAddr record ouiMap true m).2 cat mac = recAt m cat mac := by
  intro ouiMap
  induction ouiMap with
  | nil => intro m; exact ⟨rfl, fun _ _ => rfl⟩
  | cons c rest ih =>
    intro m
    obtain ⟨ouiType, macIDs⟩ := c
    have hstep : ouiLoop macAddr record ((ouiType, macIDs) :: rest) true m =
        ouiLoop macAddr record rest true
          (if (dlookup ouiType m).isNone then dinsert ouiType [] m else m) := by
      simp [ouiLoop]
    rw [hstep]
    refine ⟨(ih _).1, fun cat mac => ?_⟩
    rw [(ih _).2 cat mac, recAt_ensure]

theorem ouiLoop_false (macAddr : String) (record : IpamRecord) :
    ∀ (ouiMap : List (String × List String)) (m : RetMap),
    (ouiLoop macAddr record ouiMap false m).1 =
      ouiMap.any (fun c => c.2.any (fun macID => macIdMatch macID macAddr)) ∧
    ∀ cat mac,
      recAt (ouiLoop macAddr record ouiMap false m).2 cat mac =
        (if (firstCat ouiMap macAddr).isSome = true
            ∧ cat = classifyCode ouiMap macAddr ∧ mac = macAddr
         then some record else recAt m cat mac) := by
  intro ouiMap
  induction ouiMap with
  | nil =>
    intro m
    refine ⟨rfl, fun cat mac => ?_⟩
    simp [ouiLoop, firstCat]
  | cons c rest ih =>
    intro m
    obtain ⟨ouiType, macIDs⟩ := c
    have hstep : ouiLoop macAddr record ((ouiType, macIDs) :: rest) false m =
        ouiLoop macAddr record rest
          (macIdLoop ouiType macAddr record macIDs false
            (if (dlookup ouiType m).isNone then dinsert ouiType [] m else m)).1
          (macIdLoop ouiType macAddr record macIDs false
            (if (dlookup ouiType m).isNone then dinsert ouiType [] m else m)).2 := by
      simp [ouiLoop]
    have hml := macIdLoop_spec ouiType macAddr record macIDs false
      (if (dlookup ouiType m).isNone then dinsert ouiType [] m else m)
    by_cases hA : macIDs.any (fun macID => macIdMatch macID macAddr) = true
    · have hfound : (macIdLoop ouiType macAddr record macIDs false
          (if (dlookup ouiType m).isNone then dinsert ouiType [] m else m)).1 = true := by
        rw [hml.1, hA]
        rfl
      have hfc : firstCat ((ouiType, macIDs) :: rest) macAddr = some (ouiType, macIDs) := by
        unfold firstCat
        exact List.find?_cons_of_pos _ hA
      have hcc : classifyCode ((ouiType, macIDs) :: rest) macAddr = ouiType := by
        unfold classifyCode
        rw [hfc]
      constructor
      · rw [hstep, hfound, (ouiLoop_found_true macAddr record rest _).1]
        simp [hA]
      · intro cat mac
        rw [hstep, hfound, (ouiLoop_found_true macAddr record rest _).2 cat mac,
          hml.2 cat mac]
        simp only [hfc, hcc, Option.isSome_some]
        by_cases hcm : cat = ouiType ∧ mac = macAddr
        · have hL : macIDs.any (fun macID => macIdMatch macID macAddr) = true
              ∧ cat = ouiType ∧ mac = macAddr := ⟨hA, hcm⟩
          rw [if_pos hL, if_pos (⟨trivial, hcm⟩ : True ∧ cat = ouiType ∧ mac = macAddr)]
        · have hL : ¬ (macIDs.any (fun macID => macIdMatch macID macAddr) = true
              ∧ cat = ouiType ∧ mac = macAddr) := fun hh => hcm hh.2
          have hR : ¬ (True ∧ cat = ouiType ∧ mac = macAddr) := fun hh => hcm hh.2
          rw [if_neg hL, if_neg hR, recAt_ensure]
    · have hA' : macIDs.any (fun macID => macIdMatch macID macAddr) = false := by
        simpa using hA
      have hfound : (macIdLoop ouiType macAddr record macIDs false
          (if (dlookup ouiType m).isNone then dinsert ouiType [] m else m)).1 = false := by
        rw [hml.1, hA']
        rfl
      have hfc : firstCat ((ouiType, macIDs) :: rest) macAddr = firstCat rest macAddr := by
        unfold firstCat
        rw [List.find?_cons_of_neg]
        simp [hA']
      have hcc : classifyCode ((ouiType, macIDs) :: rest) macAddr =
          classifyCode rest macAddr := by
        unfold classifyCode
        rw [hfc]
      have hrec : ∀ cat mac,
          recAt (macIdLoop ouiType macAddr record macIDs false
            (if (dlookup ouiType m).isNone then dinsert ouiType [] m else m)).2 cat mac =
          recAt m cat mac := by
        intro cat mac
        rw [hml.2 cat mac]
        have hC : ¬ (macIDs.any (fun macID => macIdMatch macID macAddr) = true
            ∧ cat = ouiType ∧ mac = macAddr) := by
          rw [hA']
          rintro ⟨hh, -⟩
          cases hh
        rw [if_neg hC, recAt_ensure]
      constructor
      · rw [hstep, hfound, (ih _).1]
        simp [hA']
      · intro cat mac
        rw [hstep, hfound, (ih _).2 cat mac]
        simp only [hfc, hcc]
        by_cases hcm : (firstCat rest macAddr).isSome = true
            ∧ cat = classifyCode rest macAddr ∧ mac = macAddr
        · rw [if_pos hcm, if_pos hcm]
        · rw [if_neg hcm, if_neg hcm]
          exact hrec cat mac

theorem processRecord_recAt (ouiMap : List (String × List String)) (now : DateTime)
    (m : RetMap) (record : IpamRecord) (cat mac : String) :
    recAt (processRecord ouiMap now m record) cat mac =
      (if 0 < pyLen record.lastKnownClientIdentifier
          ∧ dtLt (subMonths12 now) record.lastSeenDate = true
          ∧ (cat = classifyCode ouiMap record.lastKnownClientIdentifier ∨ cat = "All")
          ∧ mac = record.lastKnownClientIdentifier
       then some record else recAt m cat mac) := by
  by_cases h1 : 0 < pyLen record.lastKnownClientIdentifier
  · by_cases h2 : dtLt (subMonths12 now) record.lastSeenDate = true
    · unfold processRecord
      rw [if_pos h1, if_pos h2]
      have hou := ouiLoop_false record.lastKnownClientIdentifier record ouiMap m
      by_cases hany : ouiMap.any
          (fun c => c.2.any
            (fun macID => macIdMatch macID record.lastKnownClientIdentifier)) = true
      · have hf1 : (ouiLoop record.lastKnownClientIdentifier record ouiMap false m).1
            = true := by
          rw [hou.1, hany]
        rw [hf1, if_neg (by simp)]
        rw [recAt_insert2, hou.2 cat mac]
        have hsome : (firstCat ouiMap record.lastKnownClientIdentifier).isSome = true := by
          unfold firstCat
          rw [List.find?_isSome]
          simpa [List.any_eq_true] using hany
        by_cases hmac : mac = record.lastKnownClientIdentifier
        · subst hmac
          by_cases hAll : cat = "All"
          · simp [hAll, h1, h2]
          · by_cases hcc : cat = classifyCode ouiMap record.lastKnownClientIdentifier
            · simp [hAll, hcc, h1, h2, hsome]
            · simp [hAll, hcc, h1, h2]
        · simp [hmac]
      · have hany' : ouiMap.any
            (fun c => c.2.any
              (fun macID => macIdMatch macID record.lastKnownClientIdentifier)) = false := by
          simpa using hany
        have hf1 : (ouiLoop record.lastKnownClientIdentifier record ouiMap false m).1
            = false := by
          rw [hou.1, hany']
        rw [hf1, if_pos rfl]
        have hnone : firstCat ouiMap record.lastKnownClientIdentifier = none := by
          unfold firstCat
          cases hF : List.find?
              (fun c => c.2.any (fun macID => macIdMatch macID record.lastKnownClientIdentifier))
              ouiMap with
          | none => rfl
          | some c =>
            have hT : ouiMap.any
                (fun c => c.2.any
                  (fun macID => macIdMatch macID record.lastKnownClientIdentifier)) = true := by
              rw [List.any_eq_true]
              refine ⟨c, List.mem_of_find?_eq_some hF, ?_⟩
              have hpa := List.find?_some hF
              exact hpa
            rw [hT] at hany'
            cases hany'
        have hccOther : classifyCode ouiMap record.lastKnownClientIdentifier = "Other" := by
          unfold classifyCode
          rw [hnone]
        rw [recAt_insert2, recAt_insert2, hou.2 cat mac]
        simp only [hnone, Option.isSome_none]
        by_cases hmac : mac = record.lastKnownClientIdentifier
        · subst hmac
          by_cases hAll : cat = "All"
          · simp [hAll, h1, h2]
          · by_cases hOther : cat = "Other"
            · simp [hAll, hOther, h1, h2, hccOther]
            · simp [hAll, hOther, h1, h2, hccOther]
        · simp [hmac]
    · unfold processRecord
      rw [if_pos h1, if_neg h2]
      have hno : ¬ (0 < pyLen record.lastKnownClientIdentifier
          ∧ dtLt (subMonths12 now) record.lastSeenDate = true
          ∧ (cat = classifyCode ouiMap record.lastKnownClientIdentifier ∨ cat = "All")
          ∧ mac = record.lastKnownClientIdentifier) := fun hh => h2 hh.2.1
      rw [if_neg hno]
  · unfold processRecord
    rw [if_neg h1]
    have hno : ¬ (0 < pyLen record.lastKnownClientIdentifier
        ∧ dtLt (subMonths12 now) record.lastSeenDate = true
        ∧ (cat = classifyCode ouiMap record.lastKnownClientIdentifier ∨ cat = "All")
        ∧ mac = record.lastKnownClientIdentifier) := fun hh => h1 hh.1
    rw [if_neg hno]

theorem processRecords_recAt (ouiMap : List (String × List String)) (now : DateTime) :
    ∀ (records : List IpamRecord) (m : RetMap) (cat mac : String),
    (recAt (processRecords ouiMap now records m) cat mac).isSome = true ↔
      (((∃ r ∈ records, r.lastKnownClientIdentifier = mac
          ∧ 0 < pyLen mac
          ∧ dtLt (subMonths12 now) r.lastSeenDate = true)
        ∧ (cat = classifyCode ouiMap mac ∨ cat = "All"))
      ∨ (recAt m cat mac).isSome = true) := by
  intro records
  induction records with
  | nil =>
    intro m cat mac
    simp [processRecords]
  | cons record rest ih =>
    intro m cat mac
    have hstep : processRecords ouiMap now (record :: rest) m =
        processRecords ouiMap now rest (processRecord ouiMap now m record) := by
      simp [processRecords]
    rw [hstep, ih _ cat mac]
    constructor
    · rintro (⟨⟨r, hr, hprops⟩, hcats⟩ | h)
      · exact Or.inl ⟨⟨r, List.mem_cons_of_mem _ hr, hprops⟩, hcats⟩
      · rw [processRecord_recAt] at h
        split at h
        · rename_i hc
          obtain ⟨hl, hdt, hcats, hmac⟩ := hc
          subst hmac
          exact Or.inl ⟨⟨record, List.mem_cons_self _ _, rfl, hl, hdt⟩, hcats⟩
        · exact Or.inr h
    · rintro (⟨⟨r, hr, hid, hlen, hdt⟩, hcats⟩ | h)
      · rcases List.mem_cons.mp hr with hEq | hMem
        · subst hEq
          right
          have hc1 : 0 < pyLen r.lastKnownClientIdentifier := by
            rw [hid]; exact hlen
          have hc3 : cat = classifyCode ouiMap r.lastKnownClientIdentifier ∨ cat = "All" := by
            rw [hid]; exact hcats
          rw [processRecord_recAt, if_pos ⟨hc1, hdt, hc3, hid.symm⟩]
          rfl
        · exact Or.inl ⟨⟨r, hMem, hid, hlen, hdt⟩, hcats⟩
      · right
        rw [processRecord_recAt]
        split
        · rfl
        · exact h

theorem getInfoBlock_recAt (ouiMap : List (String × List String)) (now : DateTime)
    (rangeRef : Option String) (records : List IpamRecord) (cat mac : String) :
    (recAt (getInfoBlockForNetwork ouiMap now rangeRef records) cat mac).isSome = true ↔
      (rangeRef.isSome = true
        ∧ (∃ r ∈ records, r.lastKnownClientIdentifier = mac
            ∧ 0 < pyLen mac ∧ dtLt (subMonths12 now) r.lastSeenDate = true)
        ∧ (cat = classifyCode ouiMap mac ∨ cat = "All")) := by
  have hinit : (recAt ([("Other", []), ("All", [])] : RetMap) cat mac).isSome = false := by
    by_cases h1 : "Other" = cat <;> by_cases h2 : "All" = cat <;>
      simp [recAt, dlookup, h1, h2]
  cases rangeRef with
  | none =>
    simp [getInfoBlockForNetwork, hinit]
  | some ref =>
    unfold getInfoBlockForNetwork
    rw [processRecords_recAt]
    simp [hinit]

/-- C5: a hardware address is recorded in the classification map exactly under
the first category, in OUI-table order, containing a prefix case-insensitively
equal to the leading characters of the address truncated to the prefix's own
length (`Other` when none matches), and additionally under `All` — and exactly
the addresses of records passing the hardware-address and time-window checks
are recorded at all. -/
theorem classification_first_match_or_other_and_all
    (ouiMap : List (String × List String)) (now : DateTime) (ref : String)
    (records : List IpamRecord) (cat mac : String) :
    (recAt (getInfoBlockForNetwork ouiMap now (some ref) records) cat mac).isSome = true ↔
      ((∃ r ∈ records, r.lastKnownClientIdentifier = mac
          ∧ 0 < pyLen mac
          ∧ dtLt (subMonths12 now) r.lastSeenDate = true)
        ∧ (cat = classifySpec ouiMap mac ∨ cat = "All")) := by
  rw [getInfoBlock_recAt, classifyCode_eq_classifySpec]
  simp

/-- C7: with an empty OUI table (the loader's result after any load failure)
classification is total — it never fails — and every passing record is
recorded exactly under `Other` and `All`. -/
theorem empty_oui_table_all_other (now : DateTime) (rangeRef : Option String)
    (records : List IpamRecord) (cat mac : String) :
    (recAt (getInfoBlockForNetwork [] now rangeRef records) cat mac).isSome = true ↔
      (rangeRef.isSome = true
        ∧ (∃ r ∈ records, r.lastKnownClientIdentifier = mac
            ∧ 0 < pyLen mac ∧ dtLt (subMonths12 now) r.lastSeenDate = true)
        ∧ (cat = "Other" ∨ cat = "All")) := by
  rw [getInfoBlock_recAt]
  have hother : classifyCode [] mac = "Other" := rfl
  rw [hother]

/-- C6: a record with a hardware address is retained (recorded under `All`)
iff its parsed lastSeen timestamp is strictly greater than the acquisition
time minus twelve calendar months; a record exactly at the boundary is
excluded; and the boundary uses month arithmetic (Feb 29 one year back is
clamped to Feb 28, not 365-day arithmetic). -/
theorem time_window_strict_boundary (ouiMap : List (String × List String))
    (now : DateTime) (ref : String) (r : IpamRecord)
    (hlen : 0 < pyLen r.lastKnownClientIdentifier) :
    (((recAt (getInfoBlockForNetwork ouiMap now (some ref) [r]) "All"
        r.lastKnownClientIdentifier).isSome = true) ↔
      dtLt (subMonths12 now) r.lastSeenDate = true) ∧
    (r.lastSeenDate = subMonths12 now →
      recAt (getInfoBlockForNetwork ouiMap now (some ref) [r]) "All"
        r.lastKnownClientIdentifier = none) ∧
    subMonths12 ⟨2024, 2, 29, 12, 0, 0⟩ = ⟨2023, 2, 28, 12, 0, 0⟩ := by
  have hiff := getInfoBlock_recAt ouiMap now (some ref) [r] "All"
    r.lastKnownClientIdentifier
  refine ⟨?_, ?_, by decide⟩
  · rw [hiff]
    simp [hlen]
  · intro hEq
    have hfalse : ¬ (recAt (getInfoBlockForNetwork ouiMap now (some ref) [r]) "All"
        r.lastKnownClientIdentifier).isSome = true := by
      rw [hiff]
      rintro ⟨-, ⟨rr, hrr, -, -, hdt⟩, -⟩
      rw [List.mem_singleton] at hrr
      subst hrr
      rw [hEq, dtLt_irrefl] at hdt
      cases hdt
    cases hR : recAt (getInfoBlockForNetwork ouiMap now (some ref) [r]) "All"
        r.lastKnownClientIdentifier with
    | none => rfl
    | some v =>
      rw [hR] at hfalse
      simp at hfalse

/-- Witness for C6: a concrete record inside the window at a concrete
acquisition time. -/
theorem time_window_strict_boundary_witness :
    0 < pyLen exRecent.lastKnownClientIdentifier ∧
    ((((recAt (getInfoBlockForNetwork [] exNow (some "ref") [exRecent]) "All"
        exRecent.lastKnownClientIdentifier).isSome = true) ↔
      dtLt (subMonths12 exNow) exRecent.lastSeenDate = true) ∧
    (exRecent.lastSeenDate = subMonths12 exNow →
      recAt (getInfoBlockForNetwork [] exNow (some "ref") [exRecent]) "All"
        exRecent.lastKnownClientIdentifier = none) ∧
    subMonths12 ⟨2024, 2, 29, 12, 0, 0⟩ = ⟨2023, 2, 28, 12, 0, 0⟩) :=
  ⟨by decide, time_window_strict_boundary [] exNow "ref" exRecent (by decide)⟩

theorem dlookup_isSome_insert2 (c k cat : String) (r : IpamRecord) (m : RetMap)
    (h : (dlookup cat m).isSome = true) :
    (dlookup cat (insert2 c k r m)).isSome = true := by
  unfold insert2
  exact dlookup_isSome_dinsert _ _ _ _ h

theorem dlookup_isSome_macIdLoop (ouiType macAddr cat : String) (record : IpamRecord) :
    ∀ (macIDs : List String) (found : Bool) (m : RetMap),
    (dlookup cat m).isSome = true →
    (dlookup cat (macIdLoop ouiType macAddr record macIDs found m).2).isSome = true := by
  intro macIDs
  induction macIDs with
  | nil => intro found m h; exact h
  | cons macID rest ih =>
    intro found m h
    unfold macIdLoop
    split
    · exact ih true _ (dlookup_isSome_insert2 _ _ _ _ _ h)
    · exact ih found m h

theorem dlookup_isSome_ouiLoop (macAddr cat : String) (record : IpamRecord) :
    ∀ (ouiMap : List (String × List String)) (found : Bool) (m : RetMap),
    (dlookup cat m).isSome = true →
    (dlookup cat (ouiLoop macAddr record ouiMap found m).2).isSome = true := by
  intro ouiMap
  induction ouiMap with
  | nil => intro found m h; exact h
  | cons c rest ih =>
    intro found m h
    obtain ⟨ouiType, macIDs⟩ := c
    have hens : (dlookup cat
        (if (dlookup ouiType m).isNone then dinsert ouiType [] m else m)).isSome = true := by
      split
      · exact dlookup_isSome_dinsert _ _ _ _ h
      · exact h
    cases found with
    | true =>
      have hstep : ouiLoop macAddr record ((ouiType, macIDs) :: rest) true m =
          ouiLoop macAddr record rest true
            (if (dlookup ouiType m).isNone then dinsert ouiType [] m else m) := by
        simp [ouiLoop]
      rw [hstep]
      exact ih _ _ hens
    | false =>
      have hstep : ouiLoop macAddr record ((ouiType, macIDs) :: rest) false m =
          ouiLoop macAddr record rest
            (macIdLoop ouiType macAddr record macIDs false
              (if (dlookup ouiType m).isNone then dinsert ouiType [] m else m)).1
            (macIdLoop ouiType macAddr record macIDs false
              (if (dlookup ouiType m).isNone then dinsert ouiType [] m else m)).2 := by
        simp [ouiLoop]
      rw [hstep]
      exact ih _ _ (dlookup_isSome_macIdLoop _ _ _ _ _ _ _ hens)

theorem dlookup_isSome_processRecord (ouiMap : List (String × List String))
    (now : DateTime) (m : RetMap) (record : IpamRecord) (cat : String)
    (h : (dlookup cat m).isSome = true) :
    (dlookup cat (processRecord ouiMap now m record)).isSome = true := by
  unfold processRecord
  split
  · split
    · apply dlookup_isSome_insert2
      split
      · apply dlookup_isSome_insert2
        exact dlookup_isSome_ouiLoop _ _ _ _ _ _ h
      · exact dlookup_isSome_ouiLoop _ _ _ _ _ _ h
    · exact h
  · exact h

theorem dlookup_isSome_processRecords (ouiMap : List (String × List String))
    (now : DateTime) :
    ∀ (records : List IpamRecord) (m : RetMap) (cat : String),
    (dlookup cat m).isSome = true →
    (dlookup cat (processRecords ouiMap now records m)).isSome = true := by
  intro records
  induction records with
  | nil => intro m cat h; exact h
  | cons record rest ih =>
    intro m cat h
    unfold processRecords
    exact ih _ _ (dlookup_isSome_processRecord _ _ _ _ _ h)

/-- C9: the map returned by `getInfoBlockForNetwork` always contains the keys
`Other` and `All` — also on the early return when the range lookup fails, and
when no record passes the checks. -/
theorem retmap_contains_other_and_all (ouiMap : List (String × List String))
    (now : DateTime) (rangeRef : Option String) (records : List IpamRecord) :
    (dlookup "Other" (getInfoBlockForNetwork ouiMap now rangeRef records)).isSome = true ∧
    (dlookup "All" (getInfoBlockForNetwork ouiMap now rangeRef records)).isSome = true := by
  cases rangeRef with
  | none => exact ⟨by simp [getInfoBlockForNetwork, dlookup], by simp [getInfoBlockForNetwork, dlookup]⟩
  | some ref =>
    unfold getInfoBlockForNetwork
    constructor
    · exact dlookup_isSome_processRecords _ _ _ _ _ (by simp [dlookup])
    · exact dlookup_isSome_processRecords _ _ _ _ _ (by simp [dlookup])

/-! ## Theorems: CreateCsvFiles aggregation and the printed summary -/

/-- C1 (evaluation at the failing input): with one network and exactly one
classified address, the printed summary total for `Other` is 2 — the CSV line
list `[N1, addr]` starts with the network name itself (line 234) and `main`
sums the list lengths — although exactly one address was classified; and the
`Duplicates` total is 1 although no address appears on more than one network.
This contradicts the comment on line 317 announcing "a summary of # of MAC
addresses in each lab, by classification". -/
theorem summary_total_counts_network_name_cell :
    summaryTotal "Other" ((dlookup "Other" (processLab exLabOne).subnetMap).getD []) = 2 ∧
    ((dlookup "Other" exBlock).getD []).length = 1 ∧
    summaryTotal "Duplicates"
      ((dlookup "Duplicates" (processLab exLabOne).subnetMap).getD []) = 1 ∧
    exLabOne.map Prod.fst = ["N1"] := by
  decide

/-- C2 (evaluation at the failing input): because every passing address is
stored both under its category and under `All`, the `CreateCsvFiles` loops
see each address at least twice per network, so an address observed on the
single network `N1` is recorded under `Duplicates` with `[N1, N1]`, and an
address observed on `N1` then `N2` gets `[N1, N1, N2, N2]` rather than
`[N1, N2]`. -/
theorem duplicates_records_every_address :
    dlookup "00:11:22:33:44:55"
      ((dlookup "Duplicates" (processLab exLabOne).subnetMap).getD []) =
        some ["N1", "N1"] ∧
    dlookup "00:11:22:33:44:55"
      ((dlookup "Duplicates" (processLab exLabTwo).subnetMap).getD []) =
        some ["N1", "N1", "N2", "N2"] ∧
    (["N1", "N1", "N2", "N2"] : List String) ≠ ["N1", "N2"] := by
  decide
